import Mathlib

/-!
Verification of the container image build orchestration subsystem of the
capykat/cli repository (Go), against its natural-language specification.

The Go code is shallowly embedded:
* Go strings are modelled as Lean `String` (a list of characters).  All the
  identifiers, paths and tags manipulated by this subsystem are ASCII, where a
  Go byte index, a Go rune and a Lean `Char` coincide; `strings.ToLower` and
  `unicode.IsDigit` are embedded by their ASCII behaviour.
* Fallible Go calls return `Except String α`; a Go runtime panic is modelled
  by `Option` (`none` = panic).
* External collaborators (filesystem, build engine, remote config API) are an
  oracle structure `World` fixing the outcome of each external call, and every
  function that talks to a collaborator also returns the list of calls it
  issued (`Call`), so that ordering claims ("the engine is never invoked",
  "push is never attempted") are provable.
-/

namespace CapyBuild

/-- ASCII case folding of one character, the ASCII fragment of Go
`unicode.ToLower` as used by `strings.ToLower` (65 = `A`, 90 = `Z`; adding
32 maps onto `a`–`z`). -/
def goToLowerChar (c : Char) : Char :=
  if 65 ≤ c.toNat ∧ c.toNat ≤ 90 then Char.ofNat (c.toNat + 32) else c

/-- The `strings.ToLower`, embedded on ASCII strings. -/
def goToLower (s : String) : String :=
  ⟨s.data.map goToLowerChar⟩

/-- The `unicode.IsDigit` on the rune obtained from one byte of an ASCII string
(48 = `0`, 57 = `9`). -/
def isGoDigit (c : Char) : Bool :=
  decide (48 ≤ c.toNat ∧ c.toNat ≤ 57)

/-- The `sanitizeTaskID` from the build package:

```go
func sanitizeTaskID(s string) string {
    s = strings.ToLower(s)
    if unicode.IsDigit(rune(s[len(s)-1])) {
        s = s[:len(s)-1] + "a"
    }
    return s
}
```

On the empty string the expression `s[len(s)-1]` indexes position `-1` and the
Go program panics with an index-out-of-range runtime error; the panic is
modelled by `none`. -/
def sanitizeTaskID (s : String) : Option String :=
  let t := goToLower s
  match t.data.getLast? with
  | none => none
  | some c =>
      if isGoDigit c then some ⟨t.data.dropLast ++ ['a']⟩ else some t

/-- The `filepath.IsAbs` on Unix: the path starts with a path separator. -/
def goIsAbs (s : String) : Bool :=
  s.data.head? = some '/'

/-- The `filepath.Join root name` for the clean relative names this subsystem
joins (no trailing separators, no dot segments), where it reduces to plain
concatenation with one separator. -/
def joinPath (a b : String) : String :=
  a ++ "/" ++ b

/-- The `Args` (and `api.KindOptions`): a string-keyed map of build arguments,
embedded as an association list.  Go map access yields the zero value `""`
for an absent key. -/
def Args := List (String × String)
deriving DecidableEq

/-- Go map read `args[k]`, returning the zero value for an absent key. -/
def argsGet (a : Args) (k : String) : String :=
  match List.find? (fun kv => kv.1 == k) a with
  | some kv => kv.2
  | none => ""

/-- The filesystem visible to the builder: the set of existing file paths,
as an association-free list.  `fsx.Exists` / `os.Stat`-based checks are
membership in this list. -/
def FS := List String
deriving DecidableEq

/-- Existence check on the modelled filesystem. -/
def fsExists (fs : FS) (p : String) : Bool :=
  List.contains fs p

/-- The `RegistryAuth` from the build package: a registry token and a repository
reference. -/
structure RegistryAuth where
  token : String
  repo : String
deriving DecidableEq

/-- The `RegistryAuth.host`: `strings.SplitN(r.Repo, "/", 2)[0]`, the portion of
the repository reference before its first path separator (the whole reference
when it contains none). -/
def RegistryAuth.host (r : RegistryAuth) : String :=
  ⟨r.repo.data.takeWhile (fun c => c ≠ '/')⟩

/-- The `types.AuthConfig` as filled in by this subsystem: a username and a
password. -/
structure GoAuthConfig where
  username : String
  password : String
deriving DecidableEq

/-- An `io.Writer` destination, as far as this subsystem distinguishes them:
the process error stream or some other caller-supplied sink. -/
inductive Writer where
  | stderr
  | custom (id : Nat)
deriving DecidableEq

/-- The `Builder`: the constructed image builder (the engine client handle is
part of the `World` oracle). -/
structure Builder where
  root : String
  name : String
  args : Args
  writer : Writer
  auth : RegistryAuth
deriving DecidableEq

/-- The `Config`: the builder configuration passed to `New`.  `kind` is carried
but not inspected by `New`. -/
structure Config where
  kind : String
  root : String
  builder : String
  args : Option Args
  auth : Option RegistryAuth
  writer : Option Writer

/-- The `New` from the build package: validates that the root is absolute,
defaults the builder name to `"manual"`, the args to an empty map and the
writer to the process error stream, requires registry auth, then constructs
the engine client (`clientInit` is the outcome of
`client.NewClientWithOpts`). -/
def New (c : Config) (clientInit : Except String Unit) : Except String Builder :=
  if goIsAbs c.root = false then
    .error ("build: expected an absolute path, got " ++ c.root)
  else
    let builder := if c.builder = "" then "manual" else c.builder
    let args := c.args.getD []
    let writer := c.writer.getD .stderr
    match c.auth with
    | none => .error "build: builder requires registry auth"
    | some auth =>
        match clientInit with
        | .error e => .error e
        | .ok _ => .ok ⟨c.root, builder, args, writer, auth⟩

/-- The `Builder.registryAuth`: the fixed-username credential used for pushes and
for the per-host credential map. -/
def Builder.registryAuth (b : Builder) : GoAuthConfig :=
  ⟨"oauth2accesstoken", b.auth.token⟩

/-- The `Builder.authconfigs`: the per-registry-host credential map submitted
with a build request, keyed by exactly the host derived from the repository
reference. -/
def Builder.authconfigs (b : Builder) : List (String × GoAuthConfig) :=
  [(b.auth.host, b.registryAuth)]

/-- Synthesis-time errors of the Dockerfile synthesizer: unknown builder
kind, missing required file, or unresolved base-image version. -/
inductive SynthErr where
  | unsupportedBuilder (name : String)
  | missingFile (path : String)
  | versionNotFound (name hint : String)
deriving DecidableEq

/-- Modelled from the spec: `fsx.AssertExistsAll` is not among the provided
sources; per §4.3 a missing required file fails with a MissingFileError
naming the file. -/
def assertExistsAll (fs : FS) (p : String) : Except SynthErr Unit :=
  if fsExists fs p then .ok () else .error (.missingFile p)

/-- Modelled from the spec: the runtime-name constant for Python used as the
key of the version table. -/
def NamePython : String := "python"

/-- Modelled from the spec: `GetVersion` and its fixed version table are not
among the provided sources; per §4.3 a base-image version is resolved via a
fixed table keyed by runtime family and major-version hint, and an
unresolved pair fails with a VersionResolutionError.  The table entries
stand in for the real pinned base images. -/
def versionTable : List ((String × String) × String) :=
  [((NamePython, "3"), "python:3-buster"),
   (("golang", "1"), "golang:1-buster"),
   (("deno", "1"), "hayd/alpine-deno:1"),
   (("node", "15"), "node:15-buster"),
   (("node", "14"), "node:14-buster"),
   (("node", "12"), "node:12-buster")]

/-- Modelled from the spec: fixed version-table lookup (§4.3). -/
def GetVersion (name hint : String) : Except SynthErr String :=
  match List.find? (fun e => e.1.1 == name && e.1.2 == hint) versionTable with
  | some e => .ok e.2
  | none => .error (.versionNotFound name hint)

/-- Modelled from the spec: the embedded `python-shim.py` template is not
among the provided sources; per §4.3 and the glossary, `PythonShim` renders
an adapter script, parameterized by the entrypoint path, that invokes the
user entrypoint under a standard calling convention. -/
def PythonShim (entrypoint : String) : Except SynthErr String :=
  .ok ("import runpy\nrunpy.run_path(\x22/airplane/" ++ entrypoint ++ "\x22, run_name=\x22__main__\x22)")

/-- The `strings.Split(s, "\n")` on the character list of an ASCII string. -/
def splitOnNewline : List Char → List (List Char)
  | [] => [[]]
  | c :: rest =>
    match splitOnNewline rest with
    | [] => [[c]]
    | h :: t => if c = '\n' then [] :: h :: t else (c :: h) :: t

/-- The `strings.Join(strings.Split(shim, "\n"), "\\n\\\n")`: newline-escape the
shim content so it can be embedded in a single `echo` recipe line. -/
def escapeShim (shim : String) : String :=
  ⟨List.intercalate "\\n\\\n".data (splitOnNewline shim.data)⟩

/-- The `python` generator (shim mode): the Go template

```
    FROM {{ .Base }}
    WORKDIR /airplane
    RUN mkdir -p .airplane && echo {{.Shim}} > .airplane/shim.py
    {{if .HasRequirements}}
    COPY requirements.txt .
    RUN pip install -r requirements.txt
    {{end}}
    COPY . .
    ENTRYPOINT ["python", ".airplane/shim.py"]
```

rendered by pure text substitution, exactly as `text/template` renders it. -/
def pythonShimDockerfile (base shimEsc : String) (hasRequirements : Bool) : String :=
  "\n    FROM " ++ base ++
  "\n    WORKDIR /airplane" ++
  "\n    RUN mkdir -p .airplane && echo \x27" ++ shimEsc ++ "\x27 > .airplane/shim.py" ++
  "\n    " ++
  (if hasRequirements then
    "\n    COPY requirements.txt .\n    RUN pip install -r requirements.txt\n    "
   else "") ++
  "\n    COPY . ." ++
  "\n    ENTRYPOINT [\x22python\x22, \x22.airplane/shim.py\x22]\n\t"

/-- The `pythonLegacy` template, rendered by pure text substitution. -/
def pythonLegacyDockerfile (base entrypoint : String) (hasRequirements : Bool) : String :=
  "\n    FROM " ++ base ++
  "\n    WORKDIR /airplane\n\t\t" ++
  (if hasRequirements then "" else "\n\t\tRUN echo > requirements.txt\n\t\t") ++
  "\n    COPY . ." ++
  "\n    RUN pip install -r requirements.txt" ++
  "\n    ENTRYPOINT [\x22python\x22, \x22/airplane/" ++ entrypoint ++ "\x22]\n\t"

/-- The `pythonLegacy` from the synthesizer sources: asserts the entrypoint
exists, resolves the Python base image, and renders the legacy recipe that
always installs from `requirements.txt` (creating an empty one when the root
has none) and sets the entrypoint directly to the user file. -/
def pythonLegacy (fs : FS) (root : String) (args : Args) : Except SynthErr String := do
  let entrypoint := argsGet args "entrypoint"
  let main := joinPath root entrypoint
  let reqs := joinPath root "requirements.txt"
  let _ ← assertExistsAll fs main
  let v ← GetVersion NamePython "3"
  .ok (pythonLegacyDockerfile v entrypoint (fsExists fs reqs))

/-- The `python` from the synthesizer sources: when the `shim` argument is not
`"true"` it falls back to `pythonLegacy`; otherwise it asserts the
entrypoint exists, resolves the base image, renders the shim and embeds its
newline-escaped content in the recipe, installing dependencies only when
`requirements.txt` is present at the root. -/
def python (fs : FS) (root : String) (args : Args) : Except SynthErr String :=
  if argsGet args "shim" ≠ "true" then pythonLegacy fs root args
  else do
    let entrypoint := argsGet args "entrypoint"
    let _ ← assertExistsAll fs (joinPath root entrypoint)
    let v ← GetVersion NamePython "3"
    let shim ← PythonShim entrypoint
    .ok (pythonShimDockerfile v (escapeShim shim) (fsExists fs (joinPath root "requirements.txt")))

/-- Modelled from the spec: the `golang` generator is not among the provided
sources; per §4.3 it verifies the required entrypoint exists under the root
(missing → MissingFileError naming the file), resolves a base image from the
fixed version table, and renders a fixed recipe. -/
def golang (fs : FS) (root : String) (args : Args) : Except SynthErr String := do
  let entrypoint := argsGet args "entrypoint"
  let _ ← assertExistsAll fs (joinPath root entrypoint)
  let v ← GetVersion "golang" "1"
  .ok ("FROM " ++ v ++ "\nWORKDIR /airplane\nCOPY . .\nRUN go build -o main " ++ entrypoint ++ "\nENTRYPOINT [\x22./main\x22]\n")

/-- Modelled from the spec: the `deno` generator is not among the provided
sources; modelled like `golang` (entrypoint check, version lookup, fixed
recipe). -/
def deno (fs : FS) (root : String) (args : Args) : Except SynthErr String := do
  let entrypoint := argsGet args "entrypoint"
  let _ ← assertExistsAll fs (joinPath root entrypoint)
  let v ← GetVersion "deno" "1"
  .ok ("FROM " ++ v ++ "\nWORKDIR /airplane\nCOPY . .\nENTRYPOINT [\x22deno\x22, \x22run\x22, \x22-A\x22, \x22" ++ entrypoint ++ "\x22]\n")

/-- Modelled from the spec: the `node` generator is not among the provided
sources; modelled like `golang` (entrypoint check, version lookup, fixed
recipe). -/
def node (fs : FS) (root : String) (args : Args) : Except SynthErr String := do
  let entrypoint := argsGet args "entrypoint"
  let _ ← assertExistsAll fs (joinPath root entrypoint)
  let v ← GetVersion "node" "15"
  .ok ("FROM " ++ v ++ "\nWORKDIR /airplane\nCOPY . .\nENTRYPOINT [\x22node\x22, \x22" ++ entrypoint ++ "\x22]\n")

/-- Modelled from the spec: the `docker` generator is not among the provided
sources; per the glossary a custom/raw recipe is read from the user own
Dockerfile named by the `entrypoint` argument, which must exist under the
root (missing → MissingFileError naming the file). -/
def docker (fs : FS) (root : String) (args : Args) : Except SynthErr String := do
  let entrypoint := argsGet args "entrypoint"
  let _ ← assertExistsAll fs (joinPath root entrypoint)
  .ok ("# user-provided Dockerfile at " ++ joinPath root entrypoint ++ "\n")

/-- The `DockerfileConfig`: the synthesizer input. -/
structure DockerfileConfig where
  builder : String
  root : String
  args : Args

/-- The `BuildDockerfile`: dispatch on the builder kind; an unknown kind fails
with an UnsupportedBuilderError. -/
def BuildDockerfile (fs : FS) (c : DockerfileConfig) : Except SynthErr String :=
  match c.builder with
  | "go" => golang fs c.root c.args
  | "deno" => deno fs c.root c.args
  | "python" => python fs c.root c.args
  | "node" => node fs c.root c.args
  | "docker" => docker fs c.root c.args
  | other => .error (.unsupportedBuilder other)

/-- Whether `n` is a prefix of `h`, on character lists. -/
def isPrefixChars : List Char → List Char → Bool
  | [], _ => true
  | _ :: _, [] => false
  | a :: as, b :: bs => a == b && isPrefixChars as bs

/-- Whether `n` occurs inside `h`, on character lists. -/
def containsSubAux (n : List Char) : List Char → Bool
  | [] => isPrefixChars n []
  | c :: rest => isPrefixChars n (c :: rest) || containsSubAux n rest

/-- Whether the string `needle` occurs inside the string `hay`; used to state
which recipe lines a synthesized Dockerfile does and does not contain. -/
def strContains (hay needle : String) : Bool :=
  containsSubAux needle.data hay.data

/-- The `RegistryTokenResponse` (the fields this subsystem reads). -/
structure RegistryTokenResponse where
  token : String
  repo : String
deriving DecidableEq

/-- One external call issued by the subsystem: remote API calls and engine
calls, plus the recipe-synthesis step of the pipeline (so that "the engine is
never invoked after a synthesis failure" and "no synthesis is started after
an env-resolution failure" are statable over the emitted trace). -/
inductive Call where
  | getRegistryToken
  | getConfig (name tag : String) (showSecret : Bool)
  | synthesize (builder root : String)
  | imageBuild (tags : List String) (buildArgs : List (String × String))
      (platform : String) (authConfigs : List (String × GoAuthConfig))
  | imageList
  | imagePush (tag : String) (auth : GoAuthConfig)
deriving DecidableEq

/-- The oracle fixing the outcome of every external interaction of one
invocation: the filesystem, the remote API, the staging tree and the build
engine.  Streamed-progress copying is a separate fallible step, as in the
code. -/
structure World where
  fs : FS
  registryToken : Except String RegistryTokenResponse
  getConfig : String → String → Except String String
  clientInit : Except String Unit
  newTree : Except String Unit
  treeWrite : Except String Unit
  treeCopy : Except String Unit
  archive : Except String Unit
  imageBuild : Except String Unit
  copyBuildStream : Except String Unit
  imageList : Except String (List (List String))
  imagePush : Except String Unit
  copyPushStream : Except String Unit

/-- The errors `Builder.Build` can return, one constructor per wrapped
failure site, in pipeline order; `imageNotFound` is the verification
failure after a transport-successful build. -/
inductive BuildErr where
  | newTree (e : String)
  | dockerfile (e : SynthErr)
  | writeDockerfile (e : String)
  | copyRoot (e : String)
  | archive (e : String)
  | imageBuildErr (e : String)
  | copyOutput (e : String)
  | imageListErr (e : String)
  | imageNotFound (tag : String)
deriving DecidableEq

/-- The `BuildOutput`: the verified image tag. -/
structure BuildOutput where
  tag : String
deriving DecidableEq

/-- The nested search loop of `Builder.Build`: the first repo-tag in the
listing equal to the wanted tag. -/
def findTag (imgs : List (List String)) (tag : String) : Option String :=
  match imgs with
  | [] => none
  | img :: rest =>
      match List.find? (fun t => t == tag) img with
      | some t => some t
      | none => findTag rest tag

/-- The tag composed by `Builder.Build`:
`var name = "task-" + sanitizeTaskID(taskID)` and
`var tag = repo + "/" + name + ":" + version`, with the sanitized ID already
factored out. -/
def mkTag (b : Builder) (sid version : String) : String :=
  b.auth.repo ++ "/" ++ ("task-" ++ sid) ++ ":" ++ version

/-- The synthesis step of `Builder.Build`, as a trace event. -/
def synthCall (b : Builder) : Call :=
  .synthesize b.name b.root

/-- The engine build request submitted by `Builder.Build`: the composed tag,
an empty build-args map (`types.ImageBuildOptions.BuildArgs` is the literal
`map[string]*string{}`), the fixed target platform and the per-host
credential map. -/
def buildCall (b : Builder) (sid version : String) : Call :=
  .imageBuild [mkTag b sid version] [] "linux/amd64" b.authconfigs

/-- The `Builder.Build`: composes the tag
`repo ++ "/task-" ++ sanitized ++ ":" ++ version`, creates the staging tree,
synthesizes the Dockerfile, writes it and copies the root into the tree,
archives the tree, submits the engine build request (tag, empty build-args
map, fixed platform, per-host credentials), streams the build output, lists
images and returns a `BuildOutput` only on an exact tag match — otherwise the
image-not-found error.  `none` propagates the sanitizer panic on an empty
task ID.  The second component is the trace of synthesis/engine calls. -/
def Builder.Build (b : Builder) (w : World) (taskID version : String) :
    Option (Except BuildErr BuildOutput × List Call) :=
  match sanitizeTaskID taskID with
  | none => none
  | some sid =>
    some <|
      match w.newTree with
      | .error e => (.error (.newTree e), [])
      | .ok _ =>
        match BuildDockerfile w.fs ⟨b.name, b.root, b.args⟩ with
        | .error e => (.error (.dockerfile e), [synthCall b])
        | .ok _df =>
          match w.treeWrite with
          | .error e => (.error (.writeDockerfile e), [synthCall b])
          | .ok _ =>
            match w.treeCopy with
            | .error e => (.error (.copyRoot e), [synthCall b])
            | .ok _ =>
              match w.archive with
              | .error e => (.error (.archive e), [synthCall b])
              | .ok _ =>
                match w.imageBuild with
                | .error e =>
                    (.error (.imageBuildErr e), [synthCall b, buildCall b sid version])
                | .ok _ =>
                  match w.copyBuildStream with
                  | .error e =>
                      (.error (.copyOutput e), [synthCall b, buildCall b sid version])
                  | .ok _ =>
                    match w.imageList with
                    | .error e =>
                        (.error (.imageListErr e),
                         [synthCall b, buildCall b sid version, .imageList])
                    | .ok imgs =>
                      match findTag imgs (mkTag b sid version) with
                      | some t =>
                          (.ok ⟨t⟩, [synthCall b, buildCall b sid version, .imageList])
                      | none =>
                          (.error (.imageNotFound (mkTag b sid version)),
                           [synthCall b, buildCall b sid version, .imageList])

/-- The `Builder.Push`: submits a push for the given tag with the base64-encoded
credential payload (the JSON/base64 serialization is injective, so the trace
carries the `GoAuthConfig` value itself), then streams the push output. -/
def Builder.Push (b : Builder) (w : World) (tag : String) :
    Except String Unit × List Call :=
  let calls := [Call.imagePush tag b.registryAuth]
  match w.imagePush with
  | .error e => (.error e, calls)
  | .ok _ =>
    match w.copyPushStream with
    | .error e => (.error ("image push: " ++ e), calls)
    | .ok _ => (.ok (), calls)

/-- The `api.EnvVarValue`: a literal value or a config reference. -/
structure EnvVarValue where
  value : Option String
  config : Option String
deriving DecidableEq

/-- Modelled from the spec: `configs.ParseName` is not among the provided
sources; per §4.7 a reference entry is a name plus an optional tag, so the
reference splits at its first `:` into the name and the (possibly empty)
tag. -/
def parseName (s : String) : String × String :=
  (⟨s.data.takeWhile (fun c => c ≠ ':')⟩,
   match s.data.dropWhile (fun c => c ≠ ':') with
   | [] => ""
   | _ :: rest => ⟨rest⟩)

/-- The loop of `getBuildEnv`: literal entries pass through unchanged;
reference entries are resolved against the remote config service with the
secret-reveal flag set; the first resolution failure aborts. -/
def getBuildEnvLoop (w : World) :
    List (String × EnvVarValue) → List (String × String) → List Call →
    Except String (List (String × String)) × List Call
  | [], acc, calls => (.ok acc, calls)
  | (k, v) :: rest, acc, calls =>
    match v.value with
    | some s => getBuildEnvLoop w rest (acc ++ [(k, s)]) calls
    | none =>
      match v.config with
      | some cfg =>
        let nt := parseName cfg
        let calls := calls ++ [Call.getConfig nt.1 nt.2 true]
        match w.getConfig nt.1 nt.2 with
        | .error e => (.error e, calls)
        | .ok val => getBuildEnvLoop w rest (acc ++ [(k, val)]) calls
      | none => getBuildEnvLoop w rest acc calls

/-- The `getBuildEnv` from the local-build orchestrator. -/
def getBuildEnv (w : World) (env : List (String × EnvVarValue)) :
    Except String (List (String × String)) × List Call :=
  getBuildEnvLoop w env [] []

/-- The task definition, as far as the local-build orchestrator reads it:
its environment map and the result of `GetKindAndOptions` (the
kind-and-options decoding itself is YAML plumbing outside this subsystem,
abstracted to its outcome). -/
structure Definition where
  env : List (String × EnvVarValue)
  getKindAndOptions : Except String (String × Args)

/-- The errors of the `Local` orchestrator, one constructor per wrapped
failure site, in pipeline order. -/
inductive LocalErr where
  | registryToken (e : String)
  | buildEnv (e : String)
  | kindOptions (e : String)
  | newBuilder (e : String)
  | build (e : BuildErr)
  | push (e : String)
deriving DecidableEq

/-- The `Local` from the local-build orchestrator: fetch the registry token,
resolve the build env, read the kind and options, construct the builder,
build, then push the verified tag.  `none` propagates a sanitizer panic. -/
def Local (w : World) (d : Definition) (root taskID : String) :
    Option (Except LocalErr Unit × List Call) :=
  let calls0 := [Call.getRegistryToken]
  match w.registryToken with
  | .error e => some (.error (.registryToken e), calls0)
  | .ok reg =>
    match getBuildEnv w d.env with
    | (.error e, envCalls) => some (.error (.buildEnv e), calls0 ++ envCalls)
    | (.ok _buildEnv, envCalls) =>
      match d.getKindAndOptions with
      | .error e => some (.error (.kindOptions e), calls0 ++ envCalls)
      | .ok (kind, options) =>
        match New ⟨"", root, kind, some options, some ⟨reg.token, reg.repo⟩, none⟩ w.clientInit with
        | .error e => some (.error (.newBuilder e), calls0 ++ envCalls)
        | .ok b =>
          match b.Build w taskID "latest" with
          | none => none
          | some (.error e, bCalls) =>
              some (.error (.build e), calls0 ++ envCalls ++ bCalls)
          | some (.ok bo, bCalls) =>
            match b.Push w bo.tag with
            | (.error e, pCalls) =>
                some (.error (.push e), calls0 ++ envCalls ++ bCalls ++ pCalls)
            | (.ok _, pCalls) =>
                some (.ok (), calls0 ++ envCalls ++ bCalls ++ pCalls)

/-- Shared test fixture: a registry auth. -/
def testAuth : RegistryAuth := ⟨"tok", "gcr.io/acme"⟩

/-- Shared test fixture: a python builder rooted at `/proj`. -/
def testBuilder : Builder :=
  ⟨"/proj", "python", [("shim", "true"), ("entrypoint", "main.py")], .stderr, testAuth⟩

/-- Shared test fixture: a world whose engine succeeds at every step and
whose final image listing contains the composed tag. -/
def testWorldOk : World :=
  ⟨["/proj/main.py"], .ok ⟨"tok", "gcr.io/acme"⟩, fun _ _ => .ok "v", .ok (),
   .ok (), .ok (), .ok (), .ok (), .ok (), .ok (),
   .ok [["gcr.io/acme/task-taska:latest"]], .ok (), .ok ()⟩

/-- Shared test fixture: a world whose engine succeeds at every step but
whose final image listing is empty. -/
def testWorldMissing : World :=
  ⟨["/proj/main.py"], .ok ⟨"tok", "gcr.io/acme"⟩, fun _ _ => .ok "v", .ok (),
   .ok (), .ok (), .ok (), .ok (), .ok (), .ok (), .ok [], .ok (), .ok ()⟩

/-! ## Helper lemmas -/

theorem toNat_ofNat_valid (n : Nat) (h : Nat.isValidChar n) :
    (Char.ofNat n).toNat = n := by
  unfold Char.ofNat
  rw [dif_pos h]
  rfl

theorem isGoDigit_goToLowerChar (c : Char) :
    isGoDigit (goToLowerChar c) = isGoDigit c := by
  unfold goToLowerChar isGoDigit
  split
  · rename_i h
    have hv : Nat.isValidChar (c.toNat + 32) := Or.inl (by omega)
    rw [toNat_ofNat_valid _ hv]
    simp only [decide_eq_decide]
    omega
  · rfl

theorem getLast?_goToLower (s : String) :
    (goToLower s).data.getLast? = s.data.getLast?.map goToLowerChar := by
  show (s.data.map goToLowerChar).getLast? = _
  exact List.getLast?_map goToLowerChar s.data

theorem build_trace_shape (b : Builder) (w : World) (tid ver : String)
    (r : Except BuildErr BuildOutput) (tr : List Call)
    (h : b.Build w tid ver = some (r, tr)) :
    ∃ sid, sanitizeTaskID tid = some sid ∧
      (tr = [] ∨ tr = [synthCall b] ∨
       tr = [synthCall b, buildCall b sid ver] ∨
       tr = [synthCall b, buildCall b sid ver, .imageList]) := by
  unfold Builder.Build at h
  cases hs : sanitizeTaskID tid with
  | none => rw [hs] at h; simp at h
  | some sid =>
    rw [hs] at h
    refine ⟨sid, rfl, ?_⟩
    simp only [Option.some.injEq] at h
    repeat' split at h
    all_goals (injection h with h1 h2; subst h2; simp)

theorem findTag_some (imgs : List (List String)) (tag t : String)
    (h : findTag imgs tag = some t) : t = tag ∧ ∃ img, img ∈ imgs ∧ t ∈ img := by
  induction imgs with
  | nil => simp [findTag] at h
  | cons img rest ih =>
    unfold findTag at h
    cases hf : List.find? (fun x => x == tag) img with
    | some u =>
      rw [hf] at h
      injection h with h1
      subst h1
      have hbeq := List.find?_some hf
      have hmem := List.mem_of_find?_eq_some hf
      exact ⟨by simpa using hbeq, img, by simp, hmem⟩
    | none =>
      rw [hf] at h
      obtain ⟨h1, img', hmem, hin⟩ := ih h
      exact ⟨h1, img', by simp [hmem], hin⟩

theorem findTag_eq_none (imgs : List (List String)) (tag : String)
    (h : ∀ img ∈ imgs, tag ∉ img) : findTag imgs tag = none := by
  induction imgs with
  | nil => rfl
  | cons img rest ih =>
    unfold findTag
    cases hf : List.find? (fun x => x == tag) img with
    | some u =>
      exfalso
      have hbeq := List.find?_some hf
      have hmem := List.mem_of_find?_eq_some hf
      have hu : u = tag := by simpa using hbeq
      exact h img (by simp) (hu ▸ hmem)
    | none => exact ih (fun i hi => h i (by simp [hi]))

theorem build_ok (b : Builder) (w : World) (tid ver : String)
    (bo : BuildOutput) (tr : List Call)
    (h : b.Build w tid ver = some (.ok bo, tr)) :
    ∃ sid imgs, sanitizeTaskID tid = some sid ∧ w.imageList = .ok imgs ∧
      findTag imgs (mkTag b sid ver) = some bo.tag := by
  unfold Builder.Build at h
  cases hs : sanitizeTaskID tid with
  | none => rw [hs] at h; simp at h
  | some sid =>
    rw [hs] at h
    simp only [Option.some.injEq] at h
    repeat' split at h
    all_goals injection h with h1 h2
    all_goals try exact Except.noConfusion h1
    rename_i x1 imgs hlist x2 t hfind
    injection h1 with h3
    subst h3
    exact ⟨sid, imgs, rfl, hlist, hfind⟩

theorem build_notfound (b : Builder) (w : World) (tid ver sid : String)
    (df : String) (imgs : List (List String))
    (hs : sanitizeTaskID tid = some sid)
    (h1 : w.newTree = .ok ())
    (h2 : BuildDockerfile w.fs ⟨b.name, b.root, b.args⟩ = .ok df)
    (h3 : w.treeWrite = .ok ()) (h4 : w.treeCopy = .ok ()) (h5 : w.archive = .ok ())
    (h6 : w.imageBuild = .ok ()) (h7 : w.copyBuildStream = .ok ())
    (h8 : w.imageList = .ok imgs)
    (h9 : ∀ img ∈ imgs, mkTag b sid ver ∉ img) :
    b.Build w tid ver =
      some (.error (.imageNotFound (mkTag b sid ver)),
            [synthCall b, buildCall b sid ver, .imageList]) := by
  simp only [Builder.Build, hs, h1, h2, h3, h4, h5, h6, h7, h8,
    findTag_eq_none _ _ h9]

theorem build_synth_fail (b : Builder) (w : World) (tid ver : String) (e : SynthErr)
    (r : Except BuildErr BuildOutput) (tr : List Call)
    (h : b.Build w tid ver = some (r, tr))
    (he : BuildDockerfile w.fs ⟨b.name, b.root, b.args⟩ = .error e) :
    (∃ e', r = .error e') ∧ (tr = [] ∨ tr = [synthCall b]) := by
  unfold Builder.Build at h
  cases hs : sanitizeTaskID tid with
  | none => rw [hs] at h; simp at h
  | some sid =>
    rw [hs] at h
    simp only [Option.some.injEq] at h
    repeat' split at h
    all_goals injection h with h1 h2
    all_goals subst h2
    all_goals subst h1
    all_goals simp_all

theorem string_eq_of_data (a b : String) (h : a.data = b.data) : a = b := by
  cases a
  cases b
  exact congrArg String.mk h

theorem data_append (a b : String) : (a ++ b).data = a.data ++ b.data := rfl

theorem slash_data : ("/" : String).data = ['/'] := rfl

theorem string_append_assoc (a b c : String) : (a ++ b) ++ c = a ++ (b ++ c) := by
  apply string_eq_of_data
  show (a.data ++ b.data) ++ c.data = a.data ++ (b.data ++ c.data)
  exact List.append_assoc a.data b.data c.data

theorem slash_task : ("/" : String) ++ "task-" = "/task-" := by decide

theorem mkTag_eq (b : Builder) (sid ver : String) :
    mkTag b sid ver = b.auth.repo ++ "/task-" ++ sid ++ ":" ++ ver := by
  simp only [mkTag, ← slash_task, string_append_assoc]

theorem push_trace (b : Builder) (w : World) (tag : String) :
    (b.Push w tag).2 = [Call.imagePush tag b.registryAuth] := by
  unfold Builder.Push
  cases hp : w.imagePush with
  | error e => rfl
  | ok u =>
    cases hc : w.copyPushStream with
    | error e => rfl
    | ok u => rfl

theorem envLoop_calls_shape (w : World) (env : List (String × EnvVarValue)) :
    ∀ (acc : List (String × String)) (calls : List Call) (c : Call),
      c ∈ (getBuildEnvLoop w env acc calls).2 →
      c ∈ calls ∨ ∃ n t, c = Call.getConfig n t true := by
  induction env with
  | nil => intro acc calls c hc; exact .inl hc
  | cons kv rest ih =>
    intro acc calls c hc
    obtain ⟨k, v⟩ := kv
    cases hv : v.value with
    | some s =>
      simp only [getBuildEnvLoop, hv] at hc
      exact ih _ _ _ hc
    | none =>
      cases hcfg : v.config with
      | some cfg =>
        cases hg : w.getConfig (parseName cfg).1 (parseName cfg).2 with
        | error e =>
          simp only [getBuildEnvLoop, hv, hcfg, hg] at hc
          rcases List.mem_append.1 hc with h | h
          · exact .inl h
          · exact .inr ⟨_, _, by simpa using h⟩
        | ok val =>
          simp only [getBuildEnvLoop, hv, hcfg, hg] at hc
          rcases ih _ _ _ hc with h | h
          · rcases List.mem_append.1 h with h' | h'
            · exact .inl h'
            · exact .inr ⟨_, _, by simpa using h'⟩
          · exact .inr h
      | none =>
        simp only [getBuildEnvLoop, hv, hcfg] at hc
        exact ih _ _ _ hc

theorem envLoop_acc_sub (w : World) (env : List (String × EnvVarValue)) :
    ∀ (acc : List (String × String)) (calls : List Call) (out : List (String × String))
      (calls' : List Call),
      getBuildEnvLoop w env acc calls = (.ok out, calls') → ∀ x ∈ acc, x ∈ out := by
  induction env with
  | nil =>
    intro acc calls out calls' h x hx
    injection h with h1 h2
    injection h1 with h1
    subst h1
    exact hx
  | cons kv rest ih =>
    intro acc calls out calls' h x hx
    obtain ⟨k, v⟩ := kv
    cases hv : v.value with
    | some s =>
      simp only [getBuildEnvLoop, hv] at h
      exact ih _ _ _ _ h x (by simp [hx])
    | none =>
      cases hcfg : v.config with
      | some cfg =>
        cases hg : w.getConfig (parseName cfg).1 (parseName cfg).2 with
        | error e =>
          simp only [getBuildEnvLoop, hv, hcfg, hg] at h
          injection h with h1 h2
          exact Except.noConfusion h1
        | ok val =>
          simp only [getBuildEnvLoop, hv, hcfg, hg] at h
          exact ih _ _ _ _ h x (by simp [hx])
      | none =>
        simp only [getBuildEnvLoop, hv, hcfg] at h
        exact ih _ _ _ _ h x hx

theorem local_push_verified (w : World) (d : Definition) (root tid : String)
    (res : Except LocalErr Unit) (tr : List Call)
    (h : Local w d root tid = some (res, tr))
    (t : String) (a : GoAuthConfig) (hmem : Call.imagePush t a ∈ tr) :
    ∃ imgs img, w.imageList = .ok imgs ∧ img ∈ imgs ∧ t ∈ img := by
  unfold Local at h
  cases hreg : w.registryToken with
  | error e =>
    simp only [hreg, Option.some.injEq] at h
    obtain ⟨h1, h2⟩ := Prod.mk.inj h
    subst h2
    simp at hmem
  | ok reg =>
    rcases hE : getBuildEnv w d.env with ⟨envres, envCalls⟩
    have henvCalls : ∀ c ∈ envCalls, c ∈ ([] : List Call) ∨ ∃ n t, c = Call.getConfig n t true := by
      intro c hc
      exact envLoop_calls_shape w d.env [] [] c (by rw [show (getBuildEnvLoop w d.env [] []) = (envres, envCalls) from hE]; exact hc)
    cases envres with
    | error e =>
      simp only [hreg, hE, Option.some.injEq] at h
      obtain ⟨h1, h2⟩ := Prod.mk.inj h
      subst h2
      rcases List.mem_append.1 hmem with hm | hm
      · simp at hm
      · rcases henvCalls _ hm with hm' | ⟨n, t', hm'⟩ <;> simp_all
    | ok buildEnv =>
      cases hK : d.getKindAndOptions with
      | error e =>
        simp only [hreg, hE, hK, Option.some.injEq] at h
        obtain ⟨h1, h2⟩ := Prod.mk.inj h
        subst h2
        rcases List.mem_append.1 hmem with hm | hm
        · simp at hm
        · rcases henvCalls _ hm with hm' | ⟨n, t', hm'⟩ <;> simp_all
      | ok ko =>
        obtain ⟨kind, options⟩ := ko
        cases hN : New ⟨"", root, kind, some options, some ⟨reg.token, reg.repo⟩, none⟩ w.clientInit with
        | error e =>
          simp only [hreg, hE, hK, hN, Option.some.injEq] at h
          obtain ⟨h1, h2⟩ := Prod.mk.inj h
          subst h2
          rcases List.mem_append.1 hmem with hm | hm
          · simp at hm
          · rcases henvCalls _ hm with hm' | ⟨n, t', hm'⟩ <;> simp_all
        | ok b =>
          cases hB : b.Build w tid "latest" with
          | none =>
            simp only [hreg, hE, hK, hN, hB] at h
            exact Option.noConfusion h
          | some bres =>
            obtain ⟨br, bCalls⟩ := bres
            have hbshape := build_trace_shape b w tid "latest" br bCalls hB
            have hbNoPush : Call.imagePush t a ∉ bCalls := by
              obtain ⟨sid, _, hshape⟩ := hbshape
              rcases hshape with rfl | rfl | rfl | rfl <;>
                simp [synthCall, buildCall]
            cases br with
            | error e =>
              simp only [hreg, hE, hK, hN, hB, Option.some.injEq] at h
              obtain ⟨h1, h2⟩ := Prod.mk.inj h
              subst h2
              rcases List.mem_append.1 hmem with hm | hm
              · rcases List.mem_append.1 hm with hm' | hm'
                · simp at hm'
                · rcases henvCalls _ hm' with hm'' | ⟨n, t', hm''⟩ <;> simp_all
              · exact absurd hm hbNoPush
            | ok bo =>
              obtain ⟨sid, imgs, hsid, hlist, hfind⟩ := build_ok b w tid "latest" bo bCalls hB
              obtain ⟨hteq, img, himg, htin⟩ := findTag_some imgs (mkTag b sid "latest") bo.tag hfind
              rcases hP : b.Push w bo.tag with ⟨pres, pCalls⟩
              have hpCalls : pCalls = [Call.imagePush bo.tag b.registryAuth] := by
                have := push_trace b w bo.tag
                rw [hP] at this
                exact this
              have hfinish : t = bo.tag → ∃ imgs img, w.imageList = .ok imgs ∧ img ∈ imgs ∧ t ∈ img := by
                intro hteq'
                exact ⟨imgs, img, hlist, himg, hteq' ▸ htin⟩
              cases pres with
              | error e =>
                simp only [hreg, hE, hK, hN, hB, hP, Option.some.injEq] at h
                obtain ⟨h1, h2⟩ := Prod.mk.inj h
                subst h2
                rcases List.mem_append.1 hmem with hm | hm
                · rcases List.mem_append.1 hm with hm' | hm'
                  · rcases List.mem_append.1 hm' with hm'' | hm''
                    · simp at hm''
                    · rcases henvCalls _ hm'' with hm3 | ⟨n, t', hm3⟩ <;> simp_all
                  · exact absurd hm' hbNoPush
                · rw [hpCalls] at hm
                  simp only [List.mem_singleton] at hm
                  injection hm with hm1 hm2
                  exact hfinish hm1
              | ok u =>
                simp only [hreg, hE, hK, hN, hB, hP, Option.some.injEq] at h
                obtain ⟨h1, h2⟩ := Prod.mk.inj h
                subst h2
                rcases List.mem_append.1 hmem with hm | hm
                · rcases List.mem_append.1 hm with hm' | hm'
                  · rcases List.mem_append.1 hm' with hm'' | hm''
                    · simp at hm''
                    · rcases henvCalls _ hm'' with hm3 | ⟨n, t', hm3⟩ <;> simp_all
                  · exact absurd hm' hbNoPush
                · rw [hpCalls] at hm
                  simp only [List.mem_singleton] at hm
                  injection hm with hm1 hm2
                  exact hfinish hm1

/-! ## Claims -/

/-- C1: for every task ID whose last character is a digit, sanitization
lowercases the ID and replaces that last character with the literal letter
`a`; for every ID not ending in a digit, sanitization only case-folds it.
In particular `sanitize "Task123" = "task12a"` and
`sanitize "TaskABC" = "taskabc"`. -/
theorem sanitizeTaskID_spec :
    (∀ (s : String) (c : Char), s.data.getLast? = some c →
      (isGoDigit c = true →
        sanitizeTaskID s = some ⟨(goToLower s).data.dropLast ++ ['a']⟩) ∧
      (isGoDigit c = false → sanitizeTaskID s = some (goToLower s))) ∧
    sanitizeTaskID "Task123" = some "task12a" ∧
    sanitizeTaskID "TaskABC" = some "taskabc" := by
  refine ⟨?_, by decide, by decide⟩
  intro s c h
  have hl : (goToLower s).data.getLast? = some (goToLowerChar c) := by
    rw [getLast?_goToLower, h]
    rfl
  constructor
  · intro hd
    simp only [sanitizeTaskID, hl, isGoDigit_goToLowerChar, hd, if_true]
  · intro hd
    simp only [sanitizeTaskID, hl, isGoDigit_goToLowerChar, hd]
    rfl

/-- C1 witness: the theorem applied to the concrete input `"abc9"`. -/
theorem sanitizeTaskID_spec_witness :
    sanitizeTaskID "abc9" = some ⟨(goToLower "abc9").data.dropLast ++ ['a']⟩ :=
  ((sanitizeTaskID_spec.1 "abc9" '9' (by decide)).1 (by decide))

/-- C2: the claim requires empty input to fail with an InvalidInput error
and never to be indexed out of bounds; the code instead evaluates
`s[len(s)-1]` on the empty identifier, an out-of-bounds index that panics at
runtime (modelled by `none`). -/
theorem sanitizeTaskID_empty_panics : sanitizeTaskID "" = none := by decide

/-- The engine build request is identical in every reachable trace; its
components are fixed by the builder, the sanitized ID and the version. -/
theorem build_request_fields (b : Builder) (w : World) (tid ver : String)
    (r : Except BuildErr BuildOutput) (tr : List Call)
    (h : b.Build w tid ver = some (r, tr))
    (tags : List String) (bargs : List (String × String)) (plat : String)
    (auths : List (String × GoAuthConfig))
    (hmem : Call.imageBuild tags bargs plat auths ∈ tr) :
    ∃ sid, sanitizeTaskID tid = some sid ∧ tags = [mkTag b sid ver] ∧
      bargs = [] ∧ plat = "linux/amd64" ∧ auths = b.authconfigs := by
  obtain ⟨sid, hsid, hshape⟩ := build_trace_shape b w tid ver r tr h
  refine ⟨sid, hsid, ?_⟩
  rcases hshape with rfl | rfl | rfl | rfl
  · simp at hmem
  · simp [synthCall] at hmem
  · simp only [synthCall, buildCall, List.mem_cons, List.mem_singleton,
      List.not_mem_nil, or_false] at hmem
    rcases hmem with hmem | hmem
    · exact absurd hmem (by simp)
    · injection hmem with e1 e2 e3 e4
      exact ⟨e1, e2, e3, e4⟩
  · simp only [synthCall, buildCall, List.mem_cons, List.mem_singleton,
      List.not_mem_nil, or_false] at hmem
    rcases hmem with hmem | hmem | hmem
    · exact absurd hmem (by simp)
    · injection hmem with e1 e2 e3 e4
      exact ⟨e1, e2, e3, e4⟩
    · exact absurd hmem (by simp)

/-- C3: for every repository reference, task ID and version accepted by
`Build`, the image tag composed and submitted in the engine build request
equals `repoReference ++ "/task-" ++ sanitize taskID ++ ":" ++ version`
exactly. -/
theorem composedTag_spec (b : Builder) (w : World) (taskID version sid : String)
    (r : Except BuildErr BuildOutput) (tr : List Call)
    (hs : sanitizeTaskID taskID = some sid)
    (h : b.Build w taskID version = some (r, tr))
    (tags : List String) (bargs : List (String × String)) (plat : String)
    (auths : List (String × GoAuthConfig))
    (hmem : Call.imageBuild tags bargs plat auths ∈ tr) :
    tags = [b.auth.repo ++ "/task-" ++ sid ++ ":" ++ version] := by
  obtain ⟨sid', hsid', htags, _, _, _⟩ :=
    build_request_fields b w taskID version r tr h tags bargs plat auths hmem
  rw [hs] at hsid'
  injection hsid' with hsid'
  subst hsid'
  rw [htags, mkTag_eq]

/-- C3 witness: the theorem applied to a concrete successful build. -/
theorem composedTag_spec_witness :
    [mkTag testBuilder "taska" "latest"] =
      [testBuilder.auth.repo ++ "/task-" ++ "taska" ++ ":" ++ "latest"] :=
  composedTag_spec testBuilder testWorldOk "Task9" "latest" "taska"
    (.ok ⟨"gcr.io/acme/task-taska:latest"⟩)
    [synthCall testBuilder, buildCall testBuilder "taska" "latest", .imageList]
    (by decide) rfl
    [mkTag testBuilder "taska" "latest"] [] "linux/amd64" testBuilder.authconfigs
    (by decide)

/-- C10: for every invocation of `Build`, the build-arguments map submitted
in the engine build request is the empty map, regardless of the `Args`
configured on the builder; the remaining request fields (platform,
credential map, tag) are likewise fixed by the auth of the builder and the
sanitized ID, never by the configured `Args`. -/
theorem engineBuildArgs_spec (b : Builder) (w : World) (tid ver : String)
    (r : Except BuildErr BuildOutput) (tr : List Call)
    (h : b.Build w tid ver = some (r, tr))
    (tags : List String) (bargs : List (String × String)) (plat : String)
    (auths : List (String × GoAuthConfig))
    (hmem : Call.imageBuild tags bargs plat auths ∈ tr) :
    bargs = [] ∧ plat = "linux/amd64" ∧ auths = b.authconfigs ∧
      ∃ sid, sanitizeTaskID tid = some sid ∧ tags = [mkTag b sid ver] := by
  obtain ⟨sid, hsid, htags, hargs, hplat, hauths⟩ :=
    build_request_fields b w tid ver r tr h tags bargs plat auths hmem
  exact ⟨hargs, hplat, hauths, sid, hsid, htags⟩

/-- C10 witness: the theorem applied to a concrete successful build. -/
theorem engineBuildArgs_spec_witness :
    ([] : List (String × String)) = [] ∧ "linux/amd64" = "linux/amd64" ∧
      testBuilder.authconfigs = testBuilder.authconfigs ∧
      ∃ sid, sanitizeTaskID "Task9" = some sid ∧
        [mkTag testBuilder "taska" "latest"] = [mkTag testBuilder sid "latest"] :=
  engineBuildArgs_spec testBuilder testWorldOk "Task9" "latest"
    (.ok ⟨"gcr.io/acme/task-taska:latest"⟩)
    [synthCall testBuilder, buildCall testBuilder "taska" "latest", .imageList]
    rfl
    [mkTag testBuilder "taska" "latest"] [] "linux/amd64" testBuilder.authconfigs
    (by decide)

/-- C4: if the engine build call returns without transport error but the
composed tag is absent from the engine image listing, `Build` fails with
the image-not-found error and the orchestrator never attempts a push; a
`BuildOutput` is returned only when the tag is found by an exact match in
the listing (and then it is the composed tag itself), and every push the
orchestrator ever attempts is for a tag found in the listing. -/
theorem imageVerification_spec :
    (∀ (b : Builder) (w : World) (tid ver : String) (bo : BuildOutput) (tr : List Call),
      b.Build w tid ver = some (.ok bo, tr) →
      ∃ sid imgs img, sanitizeTaskID tid = some sid ∧ w.imageList = .ok imgs ∧
        img ∈ imgs ∧ bo.tag ∈ img ∧ bo.tag = mkTag b sid ver) ∧
    (∀ (b : Builder) (w : World) (tid ver sid df : String) (imgs : List (List String)),
      sanitizeTaskID tid = some sid →
      w.newTree = .ok () →
      BuildDockerfile w.fs ⟨b.name, b.root, b.args⟩ = .ok df →
      w.treeWrite = .ok () → w.treeCopy = .ok () → w.archive = .ok () →
      w.imageBuild = .ok () → w.copyBuildStream = .ok () →
      w.imageList = .ok imgs →
      (∀ img ∈ imgs, mkTag b sid ver ∉ img) →
      b.Build w tid ver =
        some (.error (.imageNotFound (mkTag b sid ver)),
              [synthCall b, buildCall b sid ver, .imageList]) ∧
      (∀ (t : String) (a : GoAuthConfig),
        Call.imagePush t a ∉ [synthCall b, buildCall b sid ver, Call.imageList])) ∧
    (∀ (w : World) (d : Definition) (root tid : String) (res : Except LocalErr Unit)
       (tr : List Call) (t : String) (a : GoAuthConfig),
      Local w d root tid = some (res, tr) → Call.imagePush t a ∈ tr →
      ∃ imgs img, w.imageList = .ok imgs ∧ img ∈ imgs ∧ t ∈ img) := by
  refine ⟨?_, ?_, ?_⟩
  · intro b w tid ver bo tr h
    obtain ⟨sid, imgs, hsid, hlist, hfind⟩ := build_ok b w tid ver bo tr h
    obtain ⟨hteq, img, himg, htin⟩ := findTag_some _ _ _ hfind
    exact ⟨sid, imgs, img, hsid, hlist, himg, htin, hteq⟩
  · intro b w tid ver sid df imgs h1 h2 h3 h4 h5 h6 h7 h8 h9 h10
    refine ⟨build_notfound b w tid ver sid df imgs h1 h2 h3 h4 h5 h6 h7 h8 h9 h10, ?_⟩
    intro t a
    simp [synthCall, buildCall]
  · intro w d root tid res tr t a h hmem
    exact local_push_verified w d root tid res tr h t a hmem

/-- C4 witness: the not-found branch of the theorem applied to a concrete
world whose listing is empty. -/
theorem imageVerification_spec_witness :
    testBuilder.Build testWorldMissing "Task9" "latest" =
      some (.error (.imageNotFound (mkTag testBuilder "taska" "latest")),
            [synthCall testBuilder, buildCall testBuilder "taska" "latest", .imageList]) :=
  (imageVerification_spec.2.1 testBuilder testWorldMissing "Task9" "latest" "taska"
    (pythonShimDockerfile "python:3-buster"
      (escapeShim "import runpy\nrunpy.run_path(\x22/airplane/main.py\x22, run_name=\x22__main__\x22)")
      false)
    [] (by decide) rfl rfl rfl rfl rfl rfl rfl rfl (by simp)).1

/-- C9: for every registry auth, the derived registry host equals the
portion of the repository reference before its first path separator (the
whole reference when it contains none); the per-host credential map of the
build request is keyed by exactly this host, mapping it to the fixed
credential, and the push submits exactly that same credential. -/
theorem registryHost_spec :
    (∀ (tok pre post : String), '/' ∉ pre.data →
      RegistryAuth.host ⟨tok, pre ++ "/" ++ post⟩ = pre) ∧
    (∀ (tok repo : String), '/' ∉ repo.data →
      RegistryAuth.host ⟨tok, repo⟩ = repo) ∧
    (∀ b : Builder,
      b.authconfigs = [(b.auth.host, ⟨"oauth2accesstoken", b.auth.token⟩)] ∧
      ∀ (w : World) (tag : String),
        (b.Push w tag).2 = [Call.imagePush tag ⟨"oauth2accesstoken", b.auth.token⟩]) := by
  refine ⟨?_, ?_, ?_⟩
  · intro tok pre post hpre
    apply string_eq_of_data
    show ((pre ++ "/" ++ post).data.takeWhile _) = pre.data
    have hdata : (pre ++ "/" ++ post).data = pre.data ++ '/' :: post.data := by
      rw [data_append, data_append, slash_data, List.append_assoc]
      rfl
    rw [hdata]
    rw [List.takeWhile_append_of_pos ?hp]
    · simp [List.takeWhile_cons]
    case hp =>
      intro x hx
      simp only [ne_eq, decide_eq_true_eq]
      intro hxe
      exact hpre (hxe ▸ hx)
  · intro tok repo hrepo
    apply string_eq_of_data
    show (repo.data.takeWhile _) = repo.data
    rw [List.takeWhile_eq_self_iff]
    intro x hx
    simp only [ne_eq, decide_eq_true_eq]
    intro hxe
    exact hrepo (hxe ▸ hx)
  · intro b
    exact ⟨rfl, fun w tag => push_trace b w tag⟩

/-- C9 witness: the theorem applied to a reference with one separator. -/
theorem registryHost_spec_witness :
    RegistryAuth.host ⟨"tok", "gcr.io" ++ "/" ++ "acme"⟩ = "gcr.io" :=
  registryHost_spec.1 "tok" "gcr.io" "acme" (by decide)

/-- C5: builder construction fails for every non-absolute root path and for
every nil registry auth; on success an empty builder name defaults to
`"manual"`, a nil args map to the empty map and a nil writer to the process
error stream; and whenever the builder construction in the orchestrator fails, no
engine build and no recipe synthesis occurs. -/
theorem newValidation_spec :
    (∀ (c : Config) (ci : Except String Unit), goIsAbs c.root = false →
      New c ci = .error ("build: expected an absolute path, got " ++ c.root)) ∧
    (∀ (c : Config) (ci : Except String Unit), goIsAbs c.root = true → c.auth = none →
      New c ci = .error "build: builder requires registry auth") ∧
    (∀ (c : Config) (ci : Except String Unit) (b : Builder), New c ci = .ok b →
      (c.builder = "" → b.name = "manual") ∧
      (c.args = none → b.args = []) ∧
      (c.writer = none → b.writer = Writer.stderr)) ∧
    (∀ (w : World) (d : Definition) (root tid : String) (res : Except LocalErr Unit)
       (tr : List Call) (e : String),
      Local w d root tid = some (res, tr) → res = .error (.newBuilder e) →
      (∀ tags bargs plat auths, Call.imageBuild tags bargs plat auths ∉ tr) ∧
      (∀ bn rt, Call.synthesize bn rt ∉ tr)) := by
  refine ⟨?_, ?_, ?_, ?_⟩
  · intro c ci h
    simp [New, h]
  · intro c ci h hauth
    simp [New, h, hauth]
  · intro c ci b h
    simp only [New] at h
    split at h
    · exact Except.noConfusion h
    · split at h
      · exact Except.noConfusion h
      · split at h
        · exact Except.noConfusion h
        · injection h with h1
          subst h1
          refine ⟨?_, ?_, ?_⟩
          · intro hb; simp [hb]
          · intro ha; simp [ha]
          · intro hw; simp [hw]
  · intro w d root tid res tr e h hres
    unfold Local at h
    cases hreg : w.registryToken with
    | error e' =>
      simp only [hreg, Option.some.injEq] at h
      obtain ⟨h1, h2⟩ := Prod.mk.inj h
      rw [hres] at h1
      injection h1 with h1'
      exact LocalErr.noConfusion h1'
    | ok reg =>
      rcases hE : getBuildEnv w d.env with ⟨envres, envCalls⟩
      have henvCalls : ∀ c ∈ envCalls, c ∈ ([] : List Call) ∨ ∃ n t, c = Call.getConfig n t true := by
        intro c hc
        exact envLoop_calls_shape w d.env [] [] c
          (by rw [show getBuildEnvLoop w d.env [] [] = (envres, envCalls) from hE]; exact hc)
      cases envres with
      | error e' =>
        simp only [hreg, hE, Option.some.injEq] at h
        obtain ⟨h1, h2⟩ := Prod.mk.inj h
        rw [hres] at h1
        injection h1 with h1'
        exact LocalErr.noConfusion h1'
      | ok be =>
        cases hK : d.getKindAndOptions with
        | error e' =>
          simp only [hreg, hE, hK, Option.some.injEq] at h
          obtain ⟨h1, h2⟩ := Prod.mk.inj h
          rw [hres] at h1
          injection h1 with h1'
          exact LocalErr.noConfusion h1'
        | ok ko =>
          obtain ⟨kind, options⟩ := ko
          cases hN : New ⟨"", root, kind, some options, some ⟨reg.token, reg.repo⟩, none⟩ w.clientInit with
          | error e' =>
            simp only [hreg, hE, hK, hN, Option.some.injEq] at h
            obtain ⟨h1, h2⟩ := Prod.mk.inj h
            subst h2
            constructor
            · intro tags bargs plat auths hmem
              rcases List.mem_append.1 hmem with hm | hm
              · simp at hm
              · rcases henvCalls _ hm with hm' | ⟨n, t', hm'⟩ <;> simp_all
            · intro bn rt hmem
              rcases List.mem_append.1 hmem with hm | hm
              · simp at hm
              · rcases henvCalls _ hm with hm' | ⟨n, t', hm'⟩ <;> simp_all
          | ok b =>
            cases hB : b.Build w tid "latest" with
            | none =>
              simp only [hreg, hE, hK, hN, hB] at h
              exact Option.noConfusion h
            | some bres =>
              obtain ⟨br, bCalls⟩ := bres
              cases br with
              | error e' =>
                simp only [hreg, hE, hK, hN, hB, Option.some.injEq] at h
                obtain ⟨h1, h2⟩ := Prod.mk.inj h
                rw [hres] at h1
                injection h1 with h1'
                exact LocalErr.noConfusion h1'
              | ok bo =>
                rcases hP : b.Push w bo.tag with ⟨pres, pCalls⟩
                cases pres with
                | error e' =>
                  simp only [hreg, hE, hK, hN, hB, hP, Option.some.injEq] at h
                  obtain ⟨h1, h2⟩ := Prod.mk.inj h
                  rw [hres] at h1
                  injection h1 with h1'
                  exact LocalErr.noConfusion h1'
                | ok u =>
                  simp only [hreg, hE, hK, hN, hB, hP, Option.some.injEq] at h
                  obtain ⟨h1, h2⟩ := Prod.mk.inj h
                  rw [hres] at h1
                  exact Except.noConfusion h1

/-- C5 witness: the theorem applied to a relative root path. -/
theorem newValidation_spec_witness :
    New ⟨"", "rel/path", "", none, none, none⟩ (.ok ()) =
      .error ("build: expected an absolute path, got " ++ "rel/path") :=
  newValidation_spec.1 ⟨"", "rel/path", "", none, none, none⟩ (.ok ()) (by decide)

theorem envLoop_literal (w : World) (env : List (String × EnvVarValue)) :
    ∀ (acc : List (String × String)) (calls : List Call) (out : List (String × String))
      (calls' : List Call) (k : String) (v : EnvVarValue) (s : String),
      getBuildEnvLoop w env acc calls = (.ok out, calls') →
      (k, v) ∈ env → v.value = some s → (k, s) ∈ out := by
  induction env with
  | nil =>
    intro acc calls out calls' k v s h hmem hv
    simp at hmem
  | cons kv rest ih =>
    intro acc calls out calls' k v s h hmem hv
    obtain ⟨k', v'⟩ := kv
    rcases List.mem_cons.1 hmem with heq | htail
    · obtain ⟨hk, hv'⟩ := Prod.mk.inj heq
      subst hk
      subst hv'
      simp only [getBuildEnvLoop, hv] at h
      exact envLoop_acc_sub w rest _ _ _ _ h (k, s) (by simp)
    · cases hv1 : v'.value with
      | some s' =>
        simp only [getBuildEnvLoop, hv1] at h
        exact ih _ _ _ _ _ _ _ h htail hv
      | none =>
        cases hcfg : v'.config with
        | some cfg =>
          cases hg : w.getConfig (parseName cfg).1 (parseName cfg).2 with
          | error e =>
            simp only [getBuildEnvLoop, hv1, hcfg, hg] at h
            injection h with h1 h2
            exact Except.noConfusion h1
          | ok val =>
            simp only [getBuildEnvLoop, hv1, hcfg, hg] at h
            exact ih _ _ _ _ _ _ _ h htail hv
        | none =>
          simp only [getBuildEnvLoop, hv1, hcfg] at h
          exact ih _ _ _ _ _ _ _ h htail hv

theorem envLoop_config (w : World) (env : List (String × EnvVarValue)) :
    ∀ (acc : List (String × String)) (calls : List Call) (out : List (String × String))
      (calls' : List Call) (k : String) (v : EnvVarValue) (cfg : String),
      getBuildEnvLoop w env acc calls = (.ok out, calls') →
      (k, v) ∈ env → v.value = none → v.config = some cfg →
      ∃ val, w.getConfig (parseName cfg).1 (parseName cfg).2 = .ok val ∧
        (k, val) ∈ out := by
  induction env with
  | nil =>
    intro acc calls out calls' k v cfg h hmem hv hcfg
    simp at hmem
  | cons kv rest ih =>
    intro acc calls out calls' k v cfg h hmem hv hcfg
    obtain ⟨k', v'⟩ := kv
    rcases List.mem_cons.1 hmem with heq | htail
    · obtain ⟨hk, hv'⟩ := Prod.mk.inj heq
      subst hk
      subst hv'
      cases hg : w.getConfig (parseName cfg).1 (parseName cfg).2 with
      | error e =>
        simp only [getBuildEnvLoop, hv, hcfg, hg] at h
        injection h with h1 h2
        exact Except.noConfusion h1
      | ok val =>
        simp only [getBuildEnvLoop, hv, hcfg, hg] at h
        exact ⟨val, rfl, envLoop_acc_sub w rest _ _ _ _ h (k, val) (by simp)⟩
    · cases hv1 : v'.value with
      | some s' =>
        simp only [getBuildEnvLoop, hv1] at h
        exact ih _ _ _ _ _ _ _ h htail hv hcfg
      | none =>
        cases hcfg1 : v'.config with
        | some cfg' =>
          cases hg : w.getConfig (parseName cfg').1 (parseName cfg').2 with
          | error e =>
            simp only [getBuildEnvLoop, hv1, hcfg1, hg] at h
            injection h with h1 h2
            exact Except.noConfusion h1
          | ok val =>
            simp only [getBuildEnvLoop, hv1, hcfg1, hg] at h
            exact ih _ _ _ _ _ _ _ h htail hv hcfg
        | none =>
          simp only [getBuildEnvLoop, hv1, hcfg1] at h
          exact ih _ _ _ _ _ _ _ h htail hv hcfg

/-- C6: env resolution copies literal entries into the output unchanged,
replaces reference entries by the value resolved from the remote config
service with the secret-reveal flag set, and on a resolution failure the
orchestrator aborts with that error before any recipe synthesis or engine
build is started. -/
theorem buildEnv_spec :
    (∀ (w : World) (env : List (String × EnvVarValue)) (out : List (String × String))
       (calls : List Call) (k : String) (v : EnvVarValue) (s : String),
      getBuildEnv w env = (.ok out, calls) → (k, v) ∈ env → v.value = some s →
      (k, s) ∈ out) ∧
    (∀ (w : World) (env : List (String × EnvVarValue)) (out : List (String × String))
       (calls : List Call) (k : String) (v : EnvVarValue) (cfg : String),
      getBuildEnv w env = (.ok out, calls) → (k, v) ∈ env → v.value = none →
      v.config = some cfg →
      ∃ val, w.getConfig (parseName cfg).1 (parseName cfg).2 = .ok val ∧
        (k, val) ∈ out) ∧
    (∀ (w : World) (env : List (String × EnvVarValue)) (n t : String) (s : Bool),
      Call.getConfig n t s ∈ (getBuildEnv w env).2 → s = true) ∧
    (∀ (w : World) (d : Definition) (root tid : String) (reg : RegistryTokenResponse)
       (e : String),
      w.registryToken = .ok reg → (getBuildEnv w d.env).1 = .error e →
      ∃ tr, Local w d root tid = some (.error (.buildEnv e), tr) ∧
        (∀ tags bargs plat auths, Call.imageBuild tags bargs plat auths ∉ tr) ∧
        (∀ bn rt, Call.synthesize bn rt ∉ tr)) := by
  refine ⟨?_, ?_, ?_, ?_⟩
  · intro w env out calls k v s h hmem hv
    exact envLoop_literal w env [] [] out calls k v s h hmem hv
  · intro w env out calls k v cfg h hmem hv hcfg
    exact envLoop_config w env [] [] out calls k v cfg h hmem hv hcfg
  · intro w env n t s hmem
    rcases envLoop_calls_shape w env [] [] _ hmem with hm | ⟨n', t', hm⟩
    · simp at hm
    · injection hm
  · intro w d root tid reg e hreg hE1
    rcases hE : getBuildEnv w d.env with ⟨envres, envCalls⟩
    rw [hE] at hE1
    simp only at hE1
    subst hE1
    refine ⟨[Call.getRegistryToken] ++ envCalls, ?_, ?_, ?_⟩
    · simp only [Local, hreg, hE]
    · intro tags bargs plat auths hmem
      rcases List.mem_append.1 hmem with hm | hm
      · simp at hm
      · rcases envLoop_calls_shape w d.env [] [] _
          (by rw [show getBuildEnvLoop w d.env [] [] = (Except.error e, envCalls) from hE]; exact hm) with
          hm' | ⟨n, t', hm'⟩ <;> simp_all
    · intro bn rt hmem
      rcases List.mem_append.1 hmem with hm | hm
      · simp at hm
      · rcases envLoop_calls_shape w d.env [] [] _
          (by rw [show getBuildEnvLoop w d.env [] [] = (Except.error e, envCalls) from hE]; exact hm) with
          hm' | ⟨n, t', hm'⟩ <;> simp_all

/-- C6 witness: the literal-passthrough part applied to a one-entry map. -/
theorem buildEnv_spec_witness :
    ("A", "x") ∈ [("A", "x")] :=
  buildEnv_spec.1 testWorldOk [("A", ⟨some "x", none⟩)] [("A", "x")] [] "A"
    ⟨some "x", none⟩ "x" rfl (by decide) rfl

theorem except_bind_error {ε α β : Type} (e : ε) (f : α → Except ε β) :
    (Except.error e : Except ε α) >>= f = Except.error e := rfl

/-- C7: Dockerfile synthesis fails with an UnsupportedBuilderError for every
builder kind outside the recognized set; for every recognized kind it fails
with a MissingFileError naming the file when the required entrypoint is
missing under the root; and in either failure case the engine build call is
never issued, because synthesis completes before any engine interaction. -/
theorem synthesizer_spec :
    (∀ (fs : FS) (root : String) (args : Args) (bname : String),
      bname ∉ ["go", "deno", "python", "node", "docker"] →
      BuildDockerfile fs ⟨bname, root, args⟩ = .error (.unsupportedBuilder bname)) ∧
    (∀ (fs : FS) (root : String) (args : Args) (bname : String),
      bname ∈ ["go", "deno", "python", "node", "docker"] →
      fsExists fs (joinPath root (argsGet args "entrypoint")) = false →
      BuildDockerfile fs ⟨bname, root, args⟩ =
        .error (.missingFile (joinPath root (argsGet args "entrypoint")))) ∧
    (∀ (b : Builder) (w : World) (tid ver : String) (e : SynthErr)
       (r : Except BuildErr BuildOutput) (tr : List Call),
      b.Build w tid ver = some (r, tr) →
      BuildDockerfile w.fs ⟨b.name, b.root, b.args⟩ = .error e →
      (∃ e', r = .error e') ∧
      (∀ tags bargs plat auths, Call.imageBuild tags bargs plat auths ∉ tr)) := by
  refine ⟨?_, ?_, ?_⟩
  · intro fs root args bname hnot
    unfold BuildDockerfile
    split <;> simp_all
  · intro fs root args bname hin hmiss
    simp only [List.mem_cons, List.mem_singleton, List.not_mem_nil, or_false] at hin
    rcases hin with rfl | rfl | rfl | rfl | rfl
    · simp [BuildDockerfile, golang, assertExistsAll, hmiss, except_bind_error]
    · simp [BuildDockerfile, deno, assertExistsAll, hmiss, except_bind_error]
    · show python fs root args = _
      unfold python
      split
      · simp [pythonLegacy, assertExistsAll, hmiss, except_bind_error]
      · simp [assertExistsAll, hmiss, except_bind_error]
    · simp [BuildDockerfile, node, assertExistsAll, hmiss, except_bind_error]
    · simp [BuildDockerfile, docker, assertExistsAll, hmiss, except_bind_error]
  · intro b w tid ver e r tr h herr
    obtain ⟨hex, hshape⟩ := build_synth_fail b w tid ver e r tr h herr
    refine ⟨hex, ?_⟩
    intro tags bargs plat auths hmem
    rcases hshape with rfl | rfl <;> simp [synthCall] at hmem

/-- C7 witness: an unrecognized builder kind and a missing entrypoint, each
at a concrete input. -/
theorem synthesizer_spec_witness :
    BuildDockerfile [] ⟨"ruby", "/proj", []⟩ = .error (.unsupportedBuilder "ruby") ∧
    BuildDockerfile [] ⟨"python", "/proj", [("entrypoint", "main.py")]⟩ =
      .error (.missingFile (joinPath "/proj" "main.py")) := by
  constructor
  · exact synthesizer_spec.1 [] "/proj" [] "ruby" (by decide)
  · have h := synthesizer_spec.2.1 [] "/proj" [("entrypoint", "main.py")] "python"
      (by decide) (by decide)
    simpa using h

set_option maxRecDepth 100000 in
/-- C8: for a python build with shim mode on and entrypoint `main.py` over a
root containing `main.py` but no `requirements.txt`, the synthesized recipe
embeds the adapter invocation as the entrypoint and contains no
dependency-install step; with shim mode off over a root containing both
files, it installs from `requirements.txt` (without synthesizing an empty
manifest) and sets the entrypoint directly to `main.py`. -/
theorem pythonScenarios_spec :
    (∃ df,
      python ["/proj/main.py"] "/proj" [("shim", "true"), ("entrypoint", "main.py")] =
        .ok df ∧
      strContains df "ENTRYPOINT [\x22python\x22, \x22.airplane/shim.py\x22]" = true ∧
      strContains df "> .airplane/shim.py" = true ∧
      strContains df "pip install" = false) ∧
    (∃ df,
      python ["/proj/main.py", "/proj/requirements.txt"] "/proj"
          [("shim", "false"), ("entrypoint", "main.py")] =
        .ok df ∧
      strContains df "RUN pip install -r requirements.txt" = true ∧
      strContains df "ENTRYPOINT [\x22python\x22, \x22/airplane/main.py\x22]" = true ∧
      strContains df "RUN echo > requirements.txt" = false) := by
  constructor
  · exact ⟨_, rfl, by decide, by decide, by decide⟩
  · exact ⟨_, rfl, by decide, by decide, by decide⟩

end CapyBuild
